import Mathlib

/-!
Verification of the command-dispatch core of the serenity-testbot repository
(src/main-old.rs). Pure state and operations are embedded shallowly.
The repository configures the serenity standard framework; the framework's
own machinery (message parsing, permission checks, rate-limit buckets,
the dispatch-error taxonomy) is not part of the repository's sources, so
those pieces are modelled from the specification, as marked in their doc
comments. Everything else (the before/after hooks, the dispatch-error
observer, and the command handlers) is translated from src/main-old.rs.
-/

/-- The usage counter stored under the `CommandCounter` type-map key
(src/main-old.rs:35-39): a `HashMap<String, u64>` from command name to
invocation count, modelled as an association list. -/
abbrev CommandCounter := List (String × Nat)

/-- Association-list lookup, the model of `HashMap` key lookup. -/
def lookupAssoc {α β : Type} [DecidableEq α] : List (α × β) → α → Option β
  | [], _ => none
  | (k, v) :: rest, a => if k = a then some v else lookupAssoc rest a

/-- The count recorded for `name`, zero when the name is absent. -/
def getCount (counter : CommandCounter) (name : String) : Nat :=
  (lookupAssoc counter name).getD 0

/-- `*counter.entry(command_name.to_string()).or_insert(0) += 1`
(src/main-old.rs:261-262): insert the name with a default of 0 when it is
absent, then add one to its entry. -/
def incrementCount : CommandCounter → String → CommandCounter
  | [], name => [(name, 0 + 1)]
  | (k, v) :: rest, name =>
      if k = name then (k, v + 1) :: rest
      else (k, v) :: incrementCount rest name

/-- The `before` hook closure (src/main-old.rs:251-265): it logs the command
and author, increments the usage counter for the command name, and returns
`true`. The `println!` is the only effect not modelled; the author name is
kept as a parameter to reflect the closure's `msg` argument. -/
def beforeHook (counter : CommandCounter) (author_name command_name : String) :
    CommandCounter × Bool :=
  (incrementCount counter command_name, true)

/-- Outcome of a command handler (`CommandResult`): every handler in
src/main-old.rs ends with `Ok(())`; the error variant mirrors the
`Err` case inspected by the `after` hook. -/
inductive CommandOutcome where
  | ok
  | err (msg : String)
deriving DecidableEq

/-- The `commands` handler (src/main-old.rs:316-331): reads the counter from
the shared data and formats one `- name: amount` line per entry after the
header line. It only reads (`ctx.data.read()`); the counter it observed is
returned unchanged to make the read-only access explicit. -/
def commands (counter : CommandCounter) : String × CommandCounter × CommandOutcome :=
  let contents := counter.foldl
    (fun acc kv => acc ++ "- " ++ kv.1 ++ ": " ++ toString kv.2 ++ "\n")
    "Commands used:\n"
  (contents, counter, CommandOutcome.ok)

/-- The `latency` handler (src/main-old.rs:358-391). The shard-runner map of
the shard manager is modelled as an association list from shard id to the
`Debug` rendering of that runner's `latency` field (the handler only embeds
that rendering in its reply). Returns the reply text sent via `msg.reply`
together with the handler's `CommandResult`. -/
def latency (shard_manager : Option (List (Nat × String))) (ctx_shard_id : Nat) :
    String × CommandOutcome :=
  match shard_manager with
  | none => ("There was a problem getting the shard manager", CommandOutcome.ok)
  | some runners =>
    match lookupAssoc runners ctx_shard_id with
    | none => ("No shard found", CommandOutcome.ok)
    | some lat => ("The shard latency is " ++ lat, CommandOutcome.ok)

/-- A list of per-command increments applied to the counter one atomic step at
a time. The source performs each increment while holding the `data` write
lock, so any concurrent execution of increments linearizes into such a
sequence. -/
def applyIncrements (counter : CommandCounter) (ops : List String) : CommandCounter :=
  ops.foldl incrementCount counter

/-- Modelled from the spec: a bucket's rate-limit policy (minimum delay
between consecutive invocations, trailing time-span window, invocation limit
inside the window); the standard framework's `Bucket` type is not part of the
repository's sources. Durations are whole seconds. -/
structure BucketPolicy where
  delay : Nat
  time_span : Nat
  limit : Nat

/-- Result of a bucket check: allow, or deny with the number of seconds until
the next invocation would be allowed. -/
inductive BucketDecision where
  | Allowed
  | Ratelimited (retry_after : Nat)
deriving DecidableEq

/-- Modelled from the spec: entries older than `time_span` are evicted lazily
from a scope key's window at check time. An entry recorded at time `t` is
still inside the trailing window at `now` exactly when `now < t + time_span`. -/
def pruneWindow (time_span now : Nat) (window : List Nat) : List Nat :=
  window.filter (fun t => now < t + time_span)

/-- Most recent entry of a window kept in oldest-first order. -/
def lastEntry : List Nat → Option Nat
  | [] => none
  | t :: rest =>
    match lastEntry rest with
    | none => some t
    | some u => some u

/-- Modelled from the spec: `check_and_record(bucket, scope_key, now)` of the
rate limiter, which is framework code absent from the repository. The window
(oldest first) is pruned, then the invocation is denied when the window
already holds `limit` entries (retry time: earliest window expiry minus
`now`) or when less than `delay` has passed since the most recent recorded
invocation; otherwise it is allowed and `now` is recorded. Denied invocations
are not recorded. -/
def check_and_record (p : BucketPolicy) (window : List Nat) (now : Nat) :
    BucketDecision × List Nat :=
  let w := pruneWindow p.time_span now window
  if p.limit ≤ w.length then
    (BucketDecision.Ratelimited (w.head?.getD now + p.time_span - now), w)
  else
    match lastEntry w with
    | some tl =>
      if now < tl + p.delay then (BucketDecision.Ratelimited (tl + p.delay - now), w)
      else (BucketDecision.Allowed, w ++ [now])
    | none => (BucketDecision.Allowed, w ++ [now])

/-- The bucket configuration named in the spec's testable property:
`limit=2, time_span=30s, delay=0`. -/
def testBucket : BucketPolicy := ⟨0, 30, 2⟩

/-- Modelled from the spec: the dispatch-error taxonomy of the framework
(the `DispatchError` enum is framework code; the repository only pattern
matches `Ratelimited` on it in its observer closure). -/
inductive DispatchError where
  | UnrecognisedCommand (name : String)
  | LackingPermissions
  | WrongChannel
  | Ratelimited (seconds : Nat)
  | HandlerError (details : String)
  | SendError
deriving DecidableEq

/-- The `on_dispatch_error` observer closure (src/main-old.rs:286-290):
replies `Try this again in {} seconds.` when and only when the error is
`Ratelimited(seconds)`; for every other error it sends nothing. The result is
the reply it sends, `none` when no reply is sent. -/
def on_dispatch_error (error : DispatchError) : Option String :=
  match error with
  | DispatchError.Ratelimited seconds =>
      some ("Try this again in " ++ toString seconds ++ " seconds.")
  | _ => none

/-- The command prefix configured in src/main-old.rs:231. -/
def configuredPrefix : String := ";"

/-- Modelled from the spec: the framework's message parser (absent from the
repository; the repository only configures it with the prefix above,
`with_whitespace(true)` and arg delimiters). The raw text must start with the
configured leading string; after removing it (and any whitespace the
`with_whitespace(true)` configuration tolerates), the first
whitespace-separated token is the command name and the remaining text,
rest-trimmed, is the argument string. Non-matching text is not a command.
The parser works on the message's character list; `startsWithChars` below
tests the leading-string match. -/
def startsWithChars : List Char → List Char → Bool
  | [], _ => true
  | _ :: _, [] => false
  | p :: ps, c :: cs => if p = c then startsWithChars ps cs else false

def parseCommand (pfx : String) (text : String) : Option (String × String) :=
  if startsWithChars pfx.toList text.toList then
    let rest := text.toList.drop pfx.toList.length
    let afterWs := rest.dropWhile (fun c => c = ' ')
    let nameChars := afterWs.takeWhile (fun c => c ≠ ' ')
    let argChars := (afterWs.dropWhile (fun c => c ≠ ' ')).dropWhile (fun c => c = ' ')
    some (String.mk nameChars, String.mk argChars)
  else
    none

/-- The per-command metadata the repository declares through attributes:
whether the command is guild-only (`#[only_in(guilds)]` on its group) and its
required roles (`#[allowed_roles(...)]`). -/
structure CommandMeta where
  guild_only : Bool
  required_roles : List String
deriving DecidableEq

/-- The invoking message as the dispatcher sees it: author name, optional
guild id, and the invoker's role names read from the collaborator. -/
structure MessageCtx where
  author_name : String
  guild_id : Option Nat
  author_roles : List String
deriving DecidableEq

/-- Whether the required role set intersects the invoker's role set. -/
def rolesIntersect (req invoker : List String) : Bool :=
  req.any (fun r => invoker.contains r)

/-- Modelled from the spec: the dispatcher's permission stage (framework code
absent from the repository). A guild-only command invoked outside a guild
context fails with `WrongChannel` (the spec's testable property states this
without qualification, so this check runs first); otherwise, a command whose
declared required roles do not intersect the invoker's role set fails with
`LackingPermissions`. -/
def permissionCheck (meta : CommandMeta) (msg : MessageCtx) : Option DispatchError :=
  if meta.guild_only && msg.guild_id.isNone then
    some DispatchError.WrongChannel
  else if !meta.required_roles.isEmpty &&
      !(rolesIntersect meta.required_roles msg.author_roles) then
    some DispatchError.LackingPermissions
  else
    none

/-- Terminal state of one dispatch. `Halted` is the veto outcome the spec
allows a before-hook to produce. -/
inductive DispatchOutcome where
  | Completed
  | Errored (e : DispatchError)
  | Halted
deriving DecidableEq

/-- Observable trace of one dispatch: the counter right after the before-hook
ran, the final counter, the terminal outcome, and whether the command handler
was executed. -/
structure DispatchTrace where
  counterAfterBefore : CommandCounter
  counterFinal : CommandCounter
  outcome : DispatchOutcome
  handlerRan : Bool
deriving DecidableEq

/-- Modelled from the spec: the dispatch pipeline for a resolved command
(framework code absent from the repository). Per the spec's design notes the
usage counter is incremented inside the before-hook unconditionally, before
the permission and bucket checks, so the before-hook runs first; a `false`
from it halts dispatch. Then the permission stage, then the bucket decision
(delegated, passed in here), then the handler, whose result
(`none` = `Ok(())`, `some why` = error) yields `Completed` or a
`HandlerError` outcome. -/
def dispatch (meta : CommandMeta) (msg : MessageCtx) (command_name : String)
    (bucket : BucketDecision) (handlerResult : Option String)
    (counter : CommandCounter) : DispatchTrace :=
  let r := beforeHook counter msg.author_name command_name
  if r.2 then
    match permissionCheck meta msg with
    | some e => ⟨r.1, r.1, DispatchOutcome.Errored e, false⟩
    | none =>
      match bucket with
      | BucketDecision.Ratelimited retry =>
          ⟨r.1, r.1, DispatchOutcome.Errored (DispatchError.Ratelimited retry), false⟩
      | BucketDecision.Allowed =>
        match handlerResult with
        | none => ⟨r.1, r.1, DispatchOutcome.Completed, true⟩
        | some why => ⟨r.1, r.1, DispatchOutcome.Errored (DispatchError.HandlerError why), true⟩
  else
    ⟨r.1, r.1, DispatchOutcome.Halted, false⟩

/-- Metadata of the `ping` command: in the guild-only `General` group
(src/main-old.rs:135) and restricted to the `staff` role
(src/main-old.rs:335). -/
def pingMeta : CommandMeta := ⟨true, ["staff"]⟩

/-- Metadata of the `latency` command: guild-only via its group, no role
restriction. -/
def latencyMeta : CommandMeta := ⟨true, []⟩

/-- Incrementing a name yields an entry holding the old count plus one. -/
theorem lookupAssoc_incrementCount_self (c : CommandCounter) (n : String) :
    lookupAssoc (incrementCount c n) n = some (getCount c n + 1) := by
  induction c with
  | nil => simp [incrementCount, lookupAssoc, getCount]
  | cons kv rest ih =>
    obtain ⟨k, v⟩ := kv
    by_cases h : k = n
    · simp [incrementCount, lookupAssoc, getCount, h]
    · simp [incrementCount, lookupAssoc, getCount, h, ih]

/-- Incrementing a name adds one to its count. -/
theorem getCount_incrementCount_self (c : CommandCounter) (n : String) :
    getCount (incrementCount c n) n = getCount c n + 1 := by
  simp [getCount, lookupAssoc_incrementCount_self]

/-- Incrementing a name leaves every other name's entry unchanged. -/
theorem lookupAssoc_incrementCount_ne (c : CommandCounter) (m n : String)
    (h : m ≠ n) : lookupAssoc (incrementCount c n) m = lookupAssoc c m := by
  induction c with
  | nil => simp [incrementCount, lookupAssoc, Ne.symm h]
  | cons kv rest ih =>
    obtain ⟨k, v⟩ := kv
    by_cases hk : k = n
    · subst hk
      simp [incrementCount, lookupAssoc, Ne.symm h]
    · by_cases hm : k = m <;> simp [incrementCount, lookupAssoc, hk, hm, h, ih]

/-- Incrementing a name leaves every other name's count unchanged. -/
theorem getCount_incrementCount_ne (c : CommandCounter) (m n : String)
    (h : m ≠ n) : getCount (incrementCount c n) m = getCount c m := by
  simp [getCount, lookupAssoc_incrementCount_ne c m n h]

/-- Claim C1: every dispatched invocation that reaches the before-hook has the
usage counter entry for its command name incremented by exactly one inside the
before-hook, unconditionally (the name being inserted with a default of 0 when
absent), before the command handler runs (the counter the pipeline carries
after the before-hook already reflects the increment) and regardless of the
permission outcome, bucket decision, or whether the handler later succeeds or
errors (the final counter equals the counter after the before-hook). -/
theorem before_hook_increments_once (meta : CommandMeta) (msg : MessageCtx)
    (name : String) (bucket : BucketDecision) (handlerResult : Option String)
    (counter : CommandCounter) :
    getCount (dispatch meta msg name bucket handlerResult counter).counterAfterBefore name
      = getCount counter name + 1 ∧
    lookupAssoc (dispatch meta msg name bucket handlerResult counter).counterAfterBefore name
      = some (getCount counter name + 1) ∧
    (dispatch meta msg name bucket handlerResult counter).counterFinal
      = (dispatch meta msg name bucket handlerResult counter).counterAfterBefore := by
  cases hp : permissionCheck meta msg <;> cases bucket <;> cases handlerResult <;>
    simp [dispatch, beforeHook, hp, getCount_incrementCount_self,
      lookupAssoc_incrementCount_self]

/-- Claim C10: the configured before-hook returns `true` for every counter
state, message and command name, so dispatch is never vetoed at the
before-hook stage: no dispatch ever terminates in the halted state. -/
theorem before_hook_never_vetoes (meta : CommandMeta) (msg : MessageCtx)
    (name : String) (bucket : BucketDecision) (handlerResult : Option String)
    (counter : CommandCounter) :
    (beforeHook counter msg.author_name name).2 = true ∧
    (dispatch meta msg name bucket handlerResult counter).outcome ≠ DispatchOutcome.Halted := by
  cases hp : permissionCheck meta msg <;> cases bucket <;> cases handlerResult <;>
    simp [dispatch, beforeHook, hp]

/-- Claim C7: the usage counter is monotone under the core operations: a
before-hook increment (for any command name) never decreases any name's
count, and the snapshot read performed by the `commands` handler returns the
counter unchanged. -/
theorem usage_counter_monotone (counter : CommandCounter) (name other : String) :
    getCount counter name ≤ getCount (incrementCount counter other) name ∧
    (commands counter).2.1 = counter := by
  refine ⟨?_, rfl⟩
  by_cases h : name = other
  · subst h
    simp [getCount_incrementCount_self]
  · simp [getCount_incrementCount_ne counter name other h]

/-- Claim C8: N increments on the same command name, each performed atomically
under the data write lock so that any concurrent execution linearizes into a
sequence of N increments, leave the name's final count exactly N larger than
before: no increment is lost or double-counted. -/
theorem concurrent_increments_exact (counter : CommandCounter) (name : String)
    (n : Nat) :
    getCount (applyIncrements counter (List.replicate n name)) name
      = getCount counter name + n := by
  induction n generalizing counter with
  | zero => simp [applyIncrements]
  | succ k ih =>
    have : applyIncrements counter (List.replicate (k + 1) name)
        = applyIncrements (incrementCount counter name) (List.replicate k name) := by
      simp [applyIncrements, List.replicate_succ]
    rw [this, ih, getCount_incrementCount_self]
    omega

/-- Claim C3: the dispatch-error observer sends a user-facing reply if and
only if the dispatch error is `Ratelimited`, and that reply reads
`Try this again in N seconds.` for the carried number of seconds; for every
other dispatch error kind it sends no reply. -/
theorem dispatch_error_reply_iff_ratelimited (e : DispatchError) (reply : String) :
    on_dispatch_error e = some reply ↔
      ∃ s, e = DispatchError.Ratelimited s ∧
        reply = "Try this again in " ++ toString s ++ " seconds." := by
  cases e <;> simp [on_dispatch_error] <;> exact eq_comm

/-- Claim C4: parsing the message `;ping staff-role` under the configured
command marker `;` yields the command name `ping` and the argument string
`staff-role`. -/
theorem parse_ping_staff_role :
    parseCommand configuredPrefix ";ping staff-role" = some ("ping", "staff-role") := by
  decide

/-- Claim C9: when the `latency` command runs and the shard id of the invoking
context is absent from the shard-runner map, it replies `No shard found` and
its result is `Ok`; when the shard id is present, it replies with that shard's
latency; in every case the handler result is `Ok`, never an error. -/
theorem latency_no_shard_reply (runners : List (Nat × String)) (sid : Nat) :
    (latency (some runners) sid).2 = CommandOutcome.ok ∧
    (lookupAssoc runners sid = none →
      (latency (some runners) sid).1 = "No shard found") ∧
    (∀ lat, lookupAssoc runners sid = some lat →
      (latency (some runners) sid).1 = "The shard latency is " ++ lat) := by
  cases h : lookupAssoc runners sid <;> simp [latency, h]

/-- Witness for C9: with a runner map holding only shard 0, invoking from
shard 1 replies `No shard found`, and invoking from shard 0 embeds that
shard's latency rendering. -/
theorem latency_no_shard_reply_witness :
    (latency (some [(0, "Some(42ms)")]) 1).1 = "No shard found" ∧
    (latency (some [(0, "Some(42ms)")]) 0).1 = "The shard latency is " ++ "Some(42ms)" :=
  ⟨(latency_no_shard_reply [(0, "Some(42ms)")] 1).2.1 (by decide),
   (latency_no_shard_reply [(0, "Some(42ms)")] 0).2.2 "Some(42ms)" (by decide)⟩

/-- Claim C5: every command declared guild-only, when dispatched with no guild
context in the invoking message, terminates with the `WrongChannel` dispatch
error and its handler is never executed, whatever the bucket decision, the
handler's would-be result and the counter state. -/
theorem guild_only_without_guild_wrong_channel (meta : CommandMeta)
    (msg : MessageCtx) (name : String) (bucket : BucketDecision)
    (handlerResult : Option String) (counter : CommandCounter)
    (hg : meta.guild_only = true) (hm : msg.guild_id = none) :
    (dispatch meta msg name bucket handlerResult counter).outcome
      = DispatchOutcome.Errored DispatchError.WrongChannel ∧
    (dispatch meta msg name bucket handlerResult counter).handlerRan = false := by
  have hp : permissionCheck meta msg = some DispatchError.WrongChannel := by
    simp [permissionCheck, hg, hm]
  simp [dispatch, beforeHook, hp]

/-- Witness for C5: the guild-only `latency` command invoked with no guild id
yields `WrongChannel` and does not run its handler. -/
theorem guild_only_without_guild_wrong_channel_witness :
    (dispatch latencyMeta ⟨"user", none, []⟩ "latency" BucketDecision.Allowed
        none []).outcome = DispatchOutcome.Errored DispatchError.WrongChannel ∧
    (dispatch latencyMeta ⟨"user", none, []⟩ "latency" BucketDecision.Allowed
        none []).handlerRan = false :=
  guild_only_without_guild_wrong_channel latencyMeta ⟨"user", none, []⟩
    "latency" BucketDecision.Allowed none [] rfl rfl

/-- Counterexample to claim C6 as stated: the repository's `ping` command
declares required role `staff` and is guild-only through its group; invoked
with no guild context by a user with no roles, its required role set does not
intersect the invoker's roles, yet dispatch terminates with `WrongChannel`,
not `LackingPermissions`, because the guild-only check fails first. -/
theorem lacking_roles_not_always_lacking_permissions :
    rolesIntersect pingMeta.required_roles [] = false ∧
    pingMeta.required_roles ≠ [] ∧
    (dispatch pingMeta ⟨"user", none, []⟩ "ping" BucketDecision.Allowed
        none []).outcome = DispatchOutcome.Errored DispatchError.WrongChannel ∧
    (dispatch pingMeta ⟨"user", none, []⟩ "ping" BucketDecision.Allowed
        none []).outcome ≠ DispatchOutcome.Errored DispatchError.LackingPermissions := by
  refine ⟨by decide, by decide, ?_, ?_⟩ <;> decide

/-- Claim C6 as amended: for every command that declares required roles, if
the invoking user's role set does not intersect the command's required role
set and the guild-only check does not fail first (the command is not
guild-only, or the message carries a guild context), the dispatch terminates
with the `LackingPermissions` dispatch error and the handler is not
executed. -/
theorem lacking_roles_lacking_permissions (meta : CommandMeta)
    (msg : MessageCtx) (name : String) (bucket : BucketDecision)
    (handlerResult : Option String) (counter : CommandCounter)
    (hreq : meta.required_roles ≠ [])
    (hint : rolesIntersect meta.required_roles msg.author_roles = false)
    (hguild : meta.guild_only = false ∨ msg.guild_id ≠ none) :
    (dispatch meta msg name bucket handlerResult counter).outcome
      = DispatchOutcome.Errored DispatchError.LackingPermissions ∧
    (dispatch meta msg name bucket handlerResult counter).handlerRan = false := by
  have hne : meta.required_roles.isEmpty = false := by
    cases h : meta.required_roles with
    | nil => exact absurd h hreq
    | cons a l => simp
  have hp : permissionCheck meta msg = some DispatchError.LackingPermissions := by
    rcases hguild with hg | hg
    · simp [permissionCheck, hg, hne, hint]
    · cases hgid : msg.guild_id with
      | none => exact absurd hgid hg
      | some g => simp [permissionCheck, hgid, hne, hint]
  simp [dispatch, beforeHook, hp]

/-- Witness for the amended C6: the role-restricted `ping` command invoked
inside guild 7 by a user whose roles do not include `staff` yields
`LackingPermissions` and does not run its handler. -/
theorem lacking_roles_lacking_permissions_witness :
    (dispatch pingMeta ⟨"user", some 7, ["member"]⟩ "ping" BucketDecision.Allowed
        none []).outcome = DispatchOutcome.Errored DispatchError.LackingPermissions ∧
    (dispatch pingMeta ⟨"user", some 7, ["member"]⟩ "ping" BucketDecision.Allowed
        none []).handlerRan = false :=
  lacking_roles_lacking_permissions pingMeta ⟨"user", some 7, ["member"]⟩
    "ping" BucketDecision.Allowed none [] (by decide) (by decide)
    (Or.inr (by decide))

/-- Claim C2: for a bucket configured `limit=2, time_span=30s, delay=0` and a
fixed scope key, three invocations at times `t1 ≤ t2 ≤ t3` all within 30
seconds of the first allow the first two and deny the third with
`Ratelimited` (retry time: the first invocation's window expiry minus now),
without recording the denied attempt; a fourth invocation more than 30
seconds after the first is allowed again. -/
theorem bucket_limit2_span30_scenario (t1 t2 t3 t4 : Nat)
    (h12 : t1 ≤ t2) (h23 : t2 ≤ t3) (h3 : t3 < t1 + 30) (h4 : t1 + 30 < t4) :
    check_and_record testBucket [] t1 = (BucketDecision.Allowed, [t1]) ∧
    check_and_record testBucket [t1] t2 = (BucketDecision.Allowed, [t1, t2]) ∧
    check_and_record testBucket [t1, t2] t3
      = (BucketDecision.Ratelimited (t1 + 30 - t3), [t1, t2]) ∧
    (check_and_record testBucket [t1, t2] t4).1 = BucketDecision.Allowed := by
  have e1 : t2 < t1 + 30 := by omega
  have e2 : ¬ t2 < t1 + 0 := by omega
  have e3 : t3 < t2 + 30 := by omega
  have e4 : ¬ t4 < t1 + 30 := by omega
  refine ⟨?_, ?_, ?_, ?_⟩
  · simp [check_and_record, pruneWindow, lastEntry, testBucket]
  · simp [check_and_record, pruneWindow, lastEntry, testBucket, e1, e2, h12]
  · simp [check_and_record, pruneWindow, lastEntry, testBucket, h3, e3]
  · by_cases hc : t4 < t2 + 30
    · have e5 : ¬ t4 < t2 := by omega
      simp [check_and_record, pruneWindow, lastEntry, testBucket, e4, hc, e5]
    · simp [check_and_record, pruneWindow, lastEntry, testBucket, e4, hc]

/-- Witness for C2: invocations at seconds 0, 5 and 10 (all within 30 seconds)
give Allowed, Allowed, then Ratelimited with 20 seconds to retry; a fourth
invocation at second 31 is allowed again. -/
theorem bucket_limit2_span30_scenario_witness :
    check_and_record testBucket [] 0 = (BucketDecision.Allowed, [0]) ∧
    check_and_record testBucket [0] 5 = (BucketDecision.Allowed, [0, 5]) ∧
    check_and_record testBucket [0, 5] 10
      = (BucketDecision.Ratelimited 20, [0, 5]) ∧
    (check_and_record testBucket [0, 5] 31).1 = BucketDecision.Allowed := by
  have h := bucket_limit2_span30_scenario 0 5 10 31
    (by decide) (by decide) (by decide) (by decide)
  simpa using h
